import Mathlib

/-
Verification development for `a2p_techbook.py` (class `A2PCreateTechBook`).

The Python module is a FreeCAD workbench command that collects TechDraw
pages of a master assembly document and its recursively referenced
sub-assembly documents, stamps the title-block fields of every page
(date, scale, sheet number, and custom fields read from a `#TECHINFO#`
spreadsheet), exports each page to a temporary PDF and merges the PDFs
into a single book.

Shallow embedding conventions used below:
  * Python dictionaries are ordered association lists `List (String × α)`
    with insertion-order iteration; `dSet` models `d[k] = v` (update in
    place when the key exists, append otherwise), `dGet?` models `d[k]`
    lookup, `dHas` models `k in d`.
  * FreeCAD documents and DrawPage objects are identified by `Nat` ids;
    the host object model (`FreeCAD.openDocument`, `findObjects`,
    `FCdocumentReader`, `a2plib.findSourceFileInProject`) is an abstract
    environment `Env`.
  * A raised exception that the code does not catch is `Option.none`;
    the recursion of `_createTechDrawDocumentList`, which Python bounds
    only by its stack depth, takes an explicit fuel argument, fuel
    exhaustion standing for `RecursionError`.
  * `print` output is returned as a list of messages.
-/

/-! ## Python dictionaries as ordered association lists

A Python `dict` keeps one entry per key in insertion order; `d[k] = v`
updates the entry in place when the key is present and appends a new
entry otherwise.  Since keys are unique, updating "the" entry is the
same as updating the first entry with that key, which is how `dSet` is
written below. -/

/-- Model of Python `d[k] = v` on an insertion-ordered dictionary. -/
def dSet {α : Type} : List (String × α) → String → α → List (String × α)
  | [], k, v => [(k, v)]
  | e :: rest, k, v => if e.1 = k then (k, v) :: rest else e :: dSet rest k v

/-- Model of Python dictionary lookup `d[k]` (as an `Option`). -/
def dGet? {α : Type} : List (String × α) → String → Option α
  | [], _ => none
  | e :: rest, k => if e.1 = k then some e.2 else dGet? rest k

/-- Model of Python `k in d`. -/
def dHas {α : Type} : List (String × α) → String → Bool
  | [], _ => false
  | e :: rest, k => e.1 = k || dHas rest k

theorem dGet?_dSet_self {α : Type} (d : List (String × α)) (k : String) (v : α) :
    dGet? (dSet d k v) k = some v := by
  induction d with
  | nil => simp [dSet, dGet?]
  | cons e rest ih =>
    by_cases he : e.1 = k
    · simp [dSet, dGet?, he]
    · simp [dSet, dGet?, he, ih]

theorem dGet?_dSet_ne {α : Type} (d : List (String × α)) (k k' : String) (v : α)
    (hne : k' ≠ k) : dGet? (dSet d k v) k' = dGet? d k' := by
  have hkk : k ≠ k' := fun h => hne h.symm
  induction d with
  | nil => simp [dSet, dGet?, hkk]
  | cons e rest ih =>
    by_cases he : e.1 = k
    · simp [dSet, dGet?, he, hkk]
    · by_cases he' : e.1 = k'
      · simp [dSet, dGet?, he, he', hne]
      · simp [dSet, dGet?, he, he', ih]

theorem dHas_dSet {α : Type} (d : List (String × α)) (k k' : String) (v : α) :
    dHas (dSet d k v) k' = (dHas d k' || decide (k' = k)) := by
  induction d with
  | nil =>
    by_cases h : k' = k
    · simp [dSet, dHas, h]
    · have hkk : ¬k = k' := fun hh => h hh.symm
      simp [dSet, dHas, h, hkk]
  | cons e rest ih =>
    by_cases he : e.1 = k
    · by_cases h : k' = k
      · simp [dSet, dHas, he, h]
      · have he' : ¬e.1 = k' := by rw [he]; exact fun hh => h hh.symm
        simp [dSet, dHas, he, he', h, fun hh : k = k' => h hh.symm]
    · simp only [dSet, if_neg he, dHas, ih]
      rw [Bool.or_assoc]

theorem dGet?_eq_none_of_dHas_false {α : Type} (d : List (String × α)) (k : String)
    (h : dHas d k = false) : dGet? d k = none := by
  induction d with
  | nil => simp [dGet?]
  | cons e rest ih =>
    simp only [dHas, Bool.or_eq_false_iff, decide_eq_false_iff_not] at h
    simp [dGet?, h.1, ih h.2]

theorem dHas_false_of_dGet?_none {α : Type} (d : List (String × α)) (k : String)
    (h : dGet? d k = none) : dHas d k = false := by
  induction d with
  | nil => simp [dHas]
  | cons e rest ih =>
    by_cases he : e.1 = k
    · simp [dGet?, he] at h
    · simp only [dGet?, if_neg he] at h
      simp [dHas, he, ih h]

theorem dHas_true_of_dGet?_some {α : Type} (d : List (String × α)) (k : String)
    (v : α) (h : dGet? d k = some v) : dHas d k = true := by
  by_cases hh : dHas d k = true
  · exact hh
  · rw [Bool.not_eq_true] at hh
    rw [dGet?_eq_none_of_dHas_false d k hh] at h
    exact absurd h (by simp)

theorem keys_dSet_of_dHas {α : Type} (d : List (String × α)) (k : String) (v : α)
    (h : dHas d k = true) : (dSet d k v).map Prod.fst = d.map Prod.fst := by
  induction d with
  | nil => simp [dHas] at h
  | cons e rest ih =>
    by_cases he : e.1 = k
    · simp [dSet, he]
    · simp only [dHas, Bool.or_eq_true, decide_eq_true_eq] at h
      rcases h with h | h
      · exact absurd h he
      · simp [dSet, he, ih h]

theorem keys_dSet_mem {α : Type} (d : List (String × α)) (k : String) (v : α)
    (a : String) (ha : a ∈ (dSet d k v).map Prod.fst) :
    a ∈ d.map Prod.fst ∨ a = k := by
  induction d with
  | nil =>
    simp only [dSet, List.map_cons, List.map_nil, List.mem_singleton] at ha
    exact Or.inr ha
  | cons e rest ih =>
    by_cases he : e.1 = k
    · simp only [dSet, if_pos he, List.map_cons, List.mem_cons] at ha
      rcases ha with ha | ha
      · exact Or.inr ha
      · exact Or.inl (List.mem_cons_of_mem _ ha)
    · simp only [dSet, if_neg he, List.map_cons, List.mem_cons] at ha
      rcases ha with ha | ha
      · exact Or.inl (ha ▸ List.mem_cons_self _ _)
      · rcases ih ha with hm | hk
        · exact Or.inl (List.mem_cons_of_mem _ hm)
        · exact Or.inr hk

theorem keys_nodup_dSet {α : Type} (d : List (String × α)) (k : String) (v : α)
    (h : (d.map Prod.fst).Nodup) : ((dSet d k v).map Prod.fst).Nodup := by
  induction d with
  | nil => simp [dSet]
  | cons e rest ih =>
    simp only [List.map_cons, List.nodup_cons] at h
    by_cases he : e.1 = k
    · simp only [dSet, if_pos he, List.map_cons, List.nodup_cons]
      exact ⟨he ▸ h.1, h.2⟩
    · simp only [dSet, if_neg he, List.map_cons, List.nodup_cons]
      refine ⟨?_, ih h.2⟩
      intro hc
      rcases keys_dSet_mem rest k v e.1 hc with hm | hk
      · exact h.1 hm
      · exact he hk

/-! ## String helpers used by the source -/

/-- Model of Python `s.endswith(t)`. -/
def pyEndsWith (s t : String) : Bool :=
  t.data.isSuffixOf s.data

/-- Model of `os.path.split`: split a path at its last separator into
`(directory, basename)`; a path without separator has directory `""`. -/
def splitPath (s : String) : String × String :=
  let rev := s.data.reverse
  let base := (rev.takeWhile (fun c => c ≠ '/')).reverse
  match rev.dropWhile (fun c => c ≠ '/') with
  | [] => ("", String.mk base)
  | _ :: dir => (String.mk dir.reverse, String.mk base)

/-- Model of `str(Path(file_path) / Path(file_name))`. -/
def joinPath (p n : String) : String :=
  if p = "" then n else p ++ "/" ++ n

/-- Model of lines 224-227 of the source: drop the final character of the
date string when it is `'Z'` ("Python datetime does not support time
ending with Z"). -/
def stripZ (s : String) : String :=
  match s.data.getLast? with
  | some 'Z' => String.mk s.data.dropLast
  | _ => s

/-- Model of `datetime.datetime.fromisoformat(s).strftime("%d/%m/%Y")`:
parse the leading `YYYY-MM-DD` of an ISO date-time string and render it
as `DD/MM/YYYY`; `none` models the `ValueError` raised on a string that
is not an ISO date-time.  (Range validation of the calendar fields and
of the time-of-day part is not modelled; it only affects which inputs
raise.) -/
def isoToDMY (s : String) : Option String :=
  match s.data with
  | y1 :: y2 :: y3 :: y4 :: '-' :: m1 :: m2 :: '-' :: d1 :: d2 :: rest =>
      if (y1.isDigit && y2.isDigit && y3.isDigit && y4.isDigit &&
          m1.isDigit && m2.isDigit && d1.isDigit && d2.isDigit) &&
         (rest.isEmpty || rest.headD ' ' = 'T' || rest.headD ' ' = ' ') then
        some (String.mk [d1, d2, '/', m1, m2, '/', y1, y2, y3, y4])
      else none
  | _ => none

/-- Decimal value of a digit string. -/
def digitsVal (ds : List Char) : Nat :=
  ds.foldl (fun a c => a * 10 + (c.toNat - Char.toNat '0')) 0

/-- Natural number denoted by a nonempty all-digit string, `none` otherwise. -/
def digits? (ds : List Char) : Option Nat :=
  if ds ≠ [] ∧ ds.all Char.isDigit then some (digitsVal ds) else none

/-- Model of Python `int(s)` on a string: optional surrounding whitespace,
optional sign, decimal digits; `none` models the `ValueError` raised on
anything else. -/
def pyInt? (s : String) : Option Int :=
  let t := ((s.data.dropWhile Char.isWhitespace).reverse.dropWhile
      Char.isWhitespace).reverse
  match t with
  | '+' :: ds => (digits? ds).map Int.ofNat
  | '-' :: ds => (digits? ds).map (fun n => -(n : Int))
  | ds => (digits? ds).map Int.ofNat

/-! ## The data model of the embedding -/

/-- The slice of a FreeCAD document visible to `_computeEditableFields`:
its `LastModifiedDate` property. -/
structure DocT where
  lastModifiedDate : String
  deriving DecidableEq, Inhabited

/-- The slice of a TechDraw `DrawPage` object the source manipulates:
the template's `EditableTexts` dictionary and the page's `Scale`. -/
structure Page where
  editableTexts : List (String × String)
  scale : Int
  deriving DecidableEq, Inhabited

/-- An entry returned by `FCdocumentReader.getA2pObjects()`: its
`getA2pSource()` string and its `isSubassembly()` flag. -/
structure A2PObj where
  source : String
  isSub : Bool
  deriving DecidableEq, Inhabited

/-- The host-application services the reference walk calls, abstracted:
`openDoc` is `FreeCAD.openDocument` (`none` models the `OSError` raised
on a missing file; documents are identified by `Nat` ids), `docPages`
is `doc.findObjects("TechDraw::DrawPage")`, `a2pObjects` is the
`FCdocumentReader` contents of a file, and `resolve` is
`a2plib.findSourceFileInProject`. -/
structure Env where
  openDoc : String → Option Nat
  docPages : Nat → List Nat
  a2pObjects : String → List A2PObj
  resolve : String → String → String

/-- A value stored in the `standard_fields` dictionary: `Stating_Page`
and `Nb_Page_After` hold integers, the three field-name entries hold
strings. -/
inductive FieldVal : Type
  | int : Int → FieldVal
  | str : String → FieldVal
  deriving DecidableEq

/-- `A2PCreateTechBook.STANDARDS_FIELDS_NAME`. -/
def STANDARDS_FIELDS_NAME : List String :=
  ["Stating_Page", "Nb_Page_After", "Date_Field", "Scale_Field", "Sheet_Field"]

/-! ## `_getUserParameters` (lines 69-105) -/

/-- Filename normalisation of `_getUserParameters` (lines 96-98): the
name selected in the save dialog gets `".pdf"` appended unless it
already ends with it. -/
def processSaveFilename (f : String) : String :=
  if pyEndsWith f ".pdf" then f else f ++ ".pdf"

/-- Model of `_getUserParameters`: `recursionAnswer` is the user's reply
to the recursion question, `dialogFile` is the file selected in the save
dialog (`none` when the dialog was cancelled, in which case an abort
message is shown and the filename is `None`). -/
def getUserParameters (recursionAnswer : Bool) (dialogFile : Option String) :
    Bool × Option String :=
  (recursionAnswer, dialogFile.map processSaveFilename)

/-! ## `_getBookParameters` (lines 107-154) -/

/-- The five default entries set at lines 123-127 (after both
dictionaries are cleared). -/
def defaultStandardFields : List (String × FieldVal) :=
  [("Stating_Page", FieldVal.int 1), ("Nb_Page_After", FieldVal.int 0),
   ("Date_Field", FieldVal.str "FC-DATE"), ("Scale_Field", FieldVal.str "FC-SC"),
   ("Sheet_Field", FieldVal.str "FC-SH")]

/-- The `temp_dict` built by the `while` loop at lines 133-143: the
spreadsheet rows `(A{i}, B{i})` read before the first `ValueError`, put
into a dictionary (a later row with the same key overwrites). -/
def buildTempDict (rows : List (String × String)) : List (String × String) :=
  rows.foldl (fun d kv => dSet d kv.1 kv.2) []

/-- One iteration of the `for k, v in temp_dict.items()` loop at lines
145-154, acting on the pair `(standard_fields, editable_fields)`. -/
def bookStep (acc : List (String × FieldVal) × List (String × String))
    (kv : String × String) :
    List (String × FieldVal) × List (String × String) :=
  if kv.1 ∈ STANDARDS_FIELDS_NAME then
    if kv.1 = "Stating_Page" ∨ kv.1 = "Nb_Page_After" then
      let v : FieldVal :=
        match pyInt? kv.2 with
        | some n => FieldVal.int n
        | none => (dGet? acc.1 kv.1).getD (FieldVal.int 0)
      (dSet acc.1 kv.1 v, acc.2)
    else (dSet acc.1 kv.1 (FieldVal.str kv.2), acc.2)
  else (acc.1, dSet acc.2 kv.1 kv.2)

/-- Model of `_getBookParameters`: the previous contents `std0`/`edit0`
of the two dictionaries are cleared (line 120-121) and ignored;
`sheetRows?` is `none` when no spreadsheet labelled `#TECHINFO#` exists,
and otherwise holds the `(A{i}, B{i})` rows read by the `while` loop. -/
def getBookParameters (std0 : List (String × FieldVal))
    (edit0 : List (String × String))
    (sheetRows? : Option (List (String × String))) :
    List (String × FieldVal) × List (String × String) :=
  match sheetRows? with
  | none => (defaultStandardFields, [])
  | some rows => (buildTempDict rows).foldl bookStep (defaultStandardFields, [])

/-! ## `_getDocumentTechDraw` (lines 156-178) -/

/-- Model of `_getDocumentTechDraw`: open the file (an `OSError` is
caught, a message is printed and `[]` is returned); a document already
in `treated` yields `[]`; otherwise the document is appended to
`treated` and its `DrawPage` objects are returned as `(doc, page)`
pairs.  The result packs the returned list, the updated `treated` list
and the printed messages. -/
def getDocumentTechDraw (env : Env) (fullFilename : String)
    (treated : List Nat) : List (Nat × Nat) × List Nat × List String :=
  match env.openDoc fullFilename with
  | none =>
      ([], treated, ["File " ++ fullFilename ++ " could not be opened !"])
  | some doc =>
      if doc ∈ treated then ([], treated, [])
      else ((env.docPages doc).map (fun i => (doc, i)), treated ++ [doc], [])

/-! ## `_createTechDrawDocumentList` (lines 180-208)

The Python function recurses into every subassembly reference without
consulting `treated` first, so on a cyclic reference graph it recurses
forever (until Python's `RecursionError`).  The embedding therefore
takes a fuel argument bounding the recursion depth; `none` models the
`RecursionError` of a run that exhausts it. -/

mutual

/-- Model of `_createTechDrawDocumentList`: collect the `(doc, page)`
pairs of the file itself, then walk its `FCdocumentReader` entries. -/
def createTechDrawDocumentList (env : Env) (fuel : Nat)
    (fileName filePath : String) (treated : List Nat) (recursive : Bool) :
    Option (List (Nat × Nat) × List Nat × List String) :=
  match fuel with
  | 0 => none
  | f + 1 =>
      let fullFilename := joinPath filePath fileName
      let r := getDocumentTechDraw env fullFilename treated
      walkA2pObjects env f (env.a2pObjects fullFilename) filePath recursive
        r.1 r.2.1 r.2.2
termination_by (fuel, 0)

/-- The `for ob in reader.getA2pObjects()` loop of
`_createTechDrawDocumentList` (lines 199-207), threading the collected
list, the `treated` list and the printed messages. -/
def walkA2pObjects (env : Env) (fuel : Nat) (objs : List A2PObj)
    (filePath : String) (recursive : Bool) (acc : List (Nat × Nat))
    (treated : List Nat) (msgs : List String) :
    Option (List (Nat × Nat) × List Nat × List String) :=
  match objs with
  | [] => some (acc, treated, msgs)
  | ob :: rest =>
      let newFullFile := env.resolve ob.source filePath
      let sp := splitPath newFullFile
      if recursive && ob.isSub then
        match createTechDrawDocumentList env fuel sp.2 sp.1 treated recursive with
        | none => none
        | some r =>
            walkA2pObjects env fuel rest filePath recursive (acc ++ r.1) r.2.1
              (msgs ++ r.2.2)
      else
        let r := getDocumentTechDraw env newFullFile treated
        walkA2pObjects env fuel rest filePath recursive (acc ++ r.1) r.2.1
          (msgs ++ r.2.2)
termination_by (fuel, objs.length + 1)

end

/-! ## `_computeEditableFields` (lines 210-234) -/

/-- The `for k, v in templates_data.items()` loop at lines 230-232:
write each entry whose key is already present in `texts`. -/
def substLoop (texts : List (String × String))
    (templatesData : List (String × String)) : List (String × String) :=
  templatesData.foldl
    (fun t kv => if dHas t kv.1 then dSet t kv.1 kv.2 else t) texts

/-- Model of `_computeEditableFields`: stamp the date field with the
document's `LastModifiedDate` (trailing `'Z'` stripped, rendered
`%d/%m/%Y`), stamp the scale field with `str(page.Scale)`, then
substitute every `templates_data` entry whose key is present, and store
the dictionary back into the template.  `none` models the `ValueError`
of an unparseable date. -/
def computeEditableFields (doc : DocT) (page : Page)
    (templatesData : List (String × String)) (dateField scaleField : String) :
    Option Page :=
  match isoToDMY (stripZ doc.lastModifiedDate) with
  | none => none
  | some dmy =>
      let texts := page.editableTexts
      let texts := dSet texts dateField dmy
      let texts := dSet texts scaleField (toString page.scale)
      let texts := substLoop texts templatesData
      some { page with editableTexts := texts }

/-! ## `_computeTechDraw` (lines 236-256) -/

/-- The standard parameters `_computeTechDraw` reads out of
`standard_fields` at lines 246-252. -/
structure StdFields where
  statingPage : Int
  nbPageAfter : Int
  dateField : String
  scaleField : String
  sheetField : String
  deriving DecidableEq, Inhabited

/-- The `for doc, page in doc_list` loop of `_computeTechDraw` (lines
253-256): set `templates_data[sheet_field]` to
`"{page_edited} / {nb_page}"`, call `_computeEditableFields`, increment
`page_edited`.  Returns the updated pages, `none` when a date fails to
parse. -/
def computeTechDrawGo (dateField scaleField sheetField : String)
    (nbPage : Int) : List (DocT × Page) → List (String × String) → Int →
    Option (List (DocT × Page))
  | [], _, _ => some []
  | (doc, page) :: rest, templatesData, pageEdited =>
      let td := dSet templatesData sheetField
        (toString pageEdited ++ " / " ++ toString nbPage)
      match computeEditableFields doc page td dateField scaleField with
      | none => none
      | some page' =>
          match computeTechDrawGo dateField scaleField sheetField nbPage
              rest td (pageEdited + 1) with
          | none => none
          | some rest' => some ((doc, page') :: rest')

/-- Model of `_computeTechDraw`: `nb_page` is
`Stating_Page + len(doc_list) + Nb_Page_After - 1`, and the loop stamps
the pages starting the sheet counter at `Stating_Page`. -/
def computeTechDraw (sf : StdFields) (docList : List (DocT × Page))
    (editableFields : List (String × String)) : Option (List (DocT × Page)) :=
  let nbPage := sf.statingPage + (docList.length : Int) + sf.nbPageAfter - 1
  computeTechDrawGo sf.dateField sf.scaleField sf.sheetField nbPage
    docList editableFields sf.statingPage

/-! ## `_createPDFFile` (lines 258-276) -/

/-- The export loop of `_createPDFFile` (lines 266-274): each page is
exported to `base_doc.getTempFileName("Page{nb}") + ".pdf"` with `nb`
counting from 1; `tempName` abstracts `getTempFileName`.  Returns the
`(pdf_file, page)` export events in order. -/
def createPDFGo (tempName : String → String) :
    List (DocT × Page) → Nat → List (String × Page)
  | [], _ => []
  | (_, page) :: rest, nb =>
      (tempName ("Page" ++ toString nb) ++ ".pdf", page) ::
        createPDFGo tempName rest (nb + 1)

/-- Model of `_createPDFFile`: export one temporary PDF per `(doc, page)`
tuple, append each to the `PdfFileMerger` in loop order, and write the
merger to the chosen filename.  The result is the export list, the
output filename and the list of files merged into it, in order. -/
def createPDFFile (tempName : String → String) (docList : List (DocT × Page))
    (filename : String) : List (String × Page) × String × List String :=
  let exports := createPDFGo tempName docList 1
  (exports, filename, exports.map Prod.fst)

/-! ## `Activated` (lines 278-303) -/

/-- Reading the five standard entries out of the `standard_fields`
dictionary, as `_computeTechDraw` does at lines 246-252.  In every run
of the pipeline the five keys are present with the right value shapes;
the `getD` defaults are never reached there. -/
def FieldVal.asInt : FieldVal → Int
  | FieldVal.int i => i
  | FieldVal.str _ => 0

def FieldVal.asStr : FieldVal → String
  | FieldVal.str s => s
  | FieldVal.int i => toString i

def stdToFields (std : List (String × FieldVal)) : StdFields :=
  { statingPage := ((dGet? std "Stating_Page").getD (FieldVal.int 1)).asInt
    nbPageAfter := ((dGet? std "Nb_Page_After").getD (FieldVal.int 0)).asInt
    dateField := ((dGet? std "Date_Field").getD (FieldVal.str "FC-DATE")).asStr
    scaleField := ((dGet? std "Scale_Field").getD (FieldVal.str "FC-SC")).asStr
    sheetField := ((dGet? std "Sheet_Field").getD (FieldVal.str "FC-SH")).asStr }

/-- The observable steps of one run of `Activated`, in order. -/
inductive Ev : Type
  | msgNoDoc : Ev
  | askUserParams : Ev
  | msgAbort : Ev
  | readBookParams : Ev
  | walkRefs : Ev
  | stampFields : Ev
  | exportMerge : Ev
  | msgCompleted : Ev
  deriving DecidableEq

/-- Everything outside the module that one run of `Activated` touches:
the active document and its `FileName`, the host services `env`, each
document's `LastModifiedDate` and each page's state, the `#TECHINFO#`
spreadsheet rows, the two dialog answers, the temp-file namer and the
recursion capacity. -/
structure World where
  activeDoc : Option Nat
  docFileName : Nat → String
  env : Env
  docDate : Nat → String
  pageState : Nat → Page
  sheetRows? : Option (List (String × String))
  recursionAnswer : Bool
  dialogFile : Option String
  tempName : String → String
  fuel : Nat

/-- The data a completed run of `Activated` has produced. -/
structure ActResult where
  docList : List (Nat × Nat)
  stamped : List (DocT × Page)
  exports : List (String × Page)
  outputFile : String
  merged : List String
  deriving DecidableEq

/-- Model of `Activated`: the straight-line orchestration at lines
278-303.  Returns the event trace of the run and, when the run
completes, its produced data; `none` with a truncated trace models a
run aborted by an early `return` or an uncaught exception. -/
def Activated (w : World) : List Ev × Option ActResult :=
  match w.activeDoc with
  | none => ([Ev.msgNoDoc], none)
  | some doc =>
      let completeFilePath := w.docFileName doc
      let sp := splitPath completeFilePath
      let up := getUserParameters w.recursionAnswer w.dialogFile
      match up.2 with
      | none => ([Ev.askUserParams, Ev.msgAbort], none)
      | some filename =>
          let bp := getBookParameters [] [] w.sheetRows?
          match createTechDrawDocumentList w.env w.fuel sp.2 sp.1 []
              up.1 with
          | none => ([Ev.askUserParams, Ev.readBookParams, Ev.walkRefs], none)
          | some wr =>
              let docList := wr.1
              let pairList := docList.map
                (fun dp => (DocT.mk (w.docDate dp.1), w.pageState dp.2))
              match computeTechDraw (stdToFields bp.1) pairList bp.2 with
              | none =>
                  ([Ev.askUserParams, Ev.readBookParams, Ev.walkRefs,
                    Ev.stampFields], none)
              | some stamped =>
                  let pdf := createPDFFile w.tempName stamped filename
                  ([Ev.askUserParams, Ev.readBookParams, Ev.walkRefs,
                    Ev.stampFields, Ev.exportMerge, Ev.msgCompleted],
                   some (ActResult.mk docList stamped pdf.1 pdf.2.1 pdf.2.2))

/-! ## Helper lemmas about `createPDFGo` -/

theorem createPDFGo_length (tempName : String → String) :
    ∀ (l : List (DocT × Page)) (nb : Nat),
      (createPDFGo tempName l nb).length = l.length := by
  intro l
  induction l with
  | nil => intro nb; simp [createPDFGo]
  | cons dp rest ih =>
    intro nb
    cases dp with
    | mk d p => simp [createPDFGo, ih]

theorem createPDFGo_get (tempName : String → String) :
    ∀ (l : List (DocT × Page)) (nb : Nat) (i : Nat) (hi : i < l.length)
      (hj : i < (createPDFGo tempName l nb).length),
      (createPDFGo tempName l nb).get ⟨i, hj⟩ =
        (tempName ("Page" ++ toString (nb + i)) ++ ".pdf",
         (l.get ⟨i, hi⟩).2) := by
  intro l
  induction l with
  | nil => intro nb i hi; simp at hi
  | cons dp rest ih =>
    intro nb i hi hj
    cases dp with
    | mk d p =>
      cases i with
      | zero => simp [createPDFGo]
      | succ i' =>
        simp only [createPDFGo, List.get_cons_succ]
        have hi' : i' < rest.length := Nat.lt_of_succ_lt_succ hi
        have hj' : i' < (createPDFGo tempName rest (nb + 1)).length := by
          rw [createPDFGo_length]; exact hi'
        rw [ih (nb + 1) i' hi' hj']
        have : nb + 1 + i' = nb + (i' + 1) := by omega
        rw [this]

theorem createPDFGo_map_snd (tempName : String → String) :
    ∀ (l : List (DocT × Page)) (nb : Nat),
      (createPDFGo tempName l nb).map Prod.snd = l.map Prod.snd := by
  intro l
  induction l with
  | nil => intro nb; simp [createPDFGo]
  | cons dp rest ih =>
    intro nb
    cases dp with
    | mk d p => simp [createPDFGo, ih]

/-! ## Claim theorems: output filename, missing file, PDF assembly, abort -/

/-- C9: for every filename the user selects in the save dialog,
`_getUserParameters` returns it unchanged when it already ends with
`".pdf"` and otherwise appends `".pdf"`, so the returned filename always
ends with `".pdf"`. -/
theorem getUserParameters_pdf_suffix (f : String) (recursionAnswer : Bool) :
    (getUserParameters recursionAnswer (some f)).2 =
      some (processSaveFilename f) ∧
    (pyEndsWith f ".pdf" = true → processSaveFilename f = f) ∧
    (pyEndsWith f ".pdf" = false → processSaveFilename f = f ++ ".pdf") ∧
    pyEndsWith (processSaveFilename f) ".pdf" = true := by
  refine ⟨rfl, ?_, ?_, ?_⟩
  · intro h; simp [processSaveFilename, h]
  · intro h; simp [processSaveFilename, h]
  · by_cases h : pyEndsWith f ".pdf" = true
    · simpa [processSaveFilename, h] using h
    · rw [Bool.not_eq_true] at h
      simp only [processSaveFilename, h, Bool.false_eq_true, if_false]
      unfold pyEndsWith
      rw [String.data_append, List.isSuffixOf_iff_suffix]
      exact List.suffix_append _ _

/-- Witness for C9 at the concrete dialog selections `"book"` and
`"book.pdf"`. -/
theorem getUserParameters_pdf_suffix_witness :
    processSaveFilename "book" = "book" ++ ".pdf" ∧
    pyEndsWith (processSaveFilename "book") ".pdf" = true ∧
    processSaveFilename "book.pdf" = "book.pdf" := by
  refine ⟨(getUserParameters_pdf_suffix "book" true).2.2.1 (by decide),
          (getUserParameters_pdf_suffix "book" true).2.2.2,
          (getUserParameters_pdf_suffix "book.pdf" true).2.1 (by decide)⟩

/-- C4: a filename whose opening raises `OSError` makes
`_getDocumentTechDraw` print a report and return an empty page list,
leaving `treated` unchanged, and the enclosing loop of
`_createTechDrawDocumentList` goes on with the remaining references,
only accumulating the report. -/
theorem getDocumentTechDraw_missing_file (env : Env) (fullFilename : String)
    (treated : List Nat) (h : env.openDoc fullFilename = none) :
    getDocumentTechDraw env fullFilename treated =
      ([], treated, ["File " ++ fullFilename ++ " could not be opened !"]) ∧
    (∀ (fuel : Nat) (ob : A2PObj) (rest : List A2PObj) (filePath : String)
       (recursive : Bool) (acc : List (Nat × Nat)) (msgs : List String),
       (recursive && ob.isSub) = false →
       env.resolve ob.source filePath = fullFilename →
       walkA2pObjects env fuel (ob :: rest) filePath recursive acc treated
           msgs =
         walkA2pObjects env fuel rest filePath recursive acc treated
           (msgs ++ ["File " ++ fullFilename ++ " could not be opened !"])) := by
  have hg : getDocumentTechDraw env fullFilename treated =
      ([], treated, ["File " ++ fullFilename ++ " could not be opened !"]) := by
    unfold getDocumentTechDraw
    rw [h]
  refine ⟨hg, ?_⟩
  intro fuel ob rest filePath recursive acc msgs hrec hres
  rw [walkA2pObjects]
  simp only [hrec, Bool.false_eq_true, if_false, hres, hg, List.append_nil]

/-- Witness for C4: a one-file environment whose only file cannot be
opened. -/
theorem getDocumentTechDraw_missing_file_witness :
    getDocumentTechDraw
        (Env.mk (fun _ => none) (fun _ => []) (fun _ => []) (fun s _ => s))
        "ghost.FCStd" [7] =
      ([], [7], ["File ghost.FCStd could not be opened !"]) :=
  (getDocumentTechDraw_missing_file
    (Env.mk (fun _ => none) (fun _ => []) (fun _ => []) (fun s _ => s))
    "ghost.FCStd" [7] rfl).1

/-- C3: `_createPDFFile` exports one temporary PDF per `(document, page)`
tuple, numbered from 1 in list order, appends exactly those files to the
merger in list order, and writes the merged book to the single chosen
output filename. -/
theorem createPDFFile_single_merged_book (tempName : String → String)
    (docList : List (DocT × Page)) (filename : String)
    (hne : docList ≠ []) :
    (createPDFFile tempName docList filename).1.length = docList.length ∧
    (∀ (i : Nat) (hi : i < docList.length),
      ∃ hj : i < (createPDFFile tempName docList filename).1.length,
        (createPDFFile tempName docList filename).1.get ⟨i, hj⟩ =
          (tempName ("Page" ++ toString (i + 1)) ++ ".pdf",
           (docList.get ⟨i, hi⟩).2)) ∧
    (createPDFFile tempName docList filename).2.1 = filename ∧
    (createPDFFile tempName docList filename).2.2 =
      (createPDFFile tempName docList filename).1.map Prod.fst := by
  refine ⟨?_, ?_, rfl, rfl⟩
  · exact createPDFGo_length tempName docList 1
  · intro i hi
    have hj : i < (createPDFFile tempName docList filename).1.length := by
      show i < (createPDFGo tempName docList 1).length
      rw [createPDFGo_length]; exact hi
    refine ⟨hj, ?_⟩
    show (createPDFGo tempName docList 1).get ⟨i, hj⟩ = _
    rw [createPDFGo_get tempName docList 1 i hi hj]
    have : 1 + i = i + 1 := by omega
    rw [this]

/-- Witness for C3 on a concrete two-page list. -/
theorem createPDFFile_single_merged_book_witness :
    (createPDFFile (fun s => "/tmp/" ++ s)
        [(DocT.mk "d1", Page.mk [] 1), (DocT.mk "d2", Page.mk [] 2)]
        "book.pdf").1.length = 2 ∧
    (createPDFFile (fun s => "/tmp/" ++ s)
        [(DocT.mk "d1", Page.mk [] 1), (DocT.mk "d2", Page.mk [] 2)]
        "book.pdf").2.1 = "book.pdf" := by
  have h := createPDFFile_single_merged_book (fun s => "/tmp/" ++ s)
    [(DocT.mk "d1", Page.mk [] 1), (DocT.mk "d2", Page.mk [] 2)]
    "book.pdf" (by simp)
  exact ⟨h.1, h.2.2.1⟩

/-- C10: with an active document present, a cancelled save dialog makes
`Activated` stop right after the abort message: the trace holds no
reference walk, no field substitution and no export, and no result data
is produced. -/
theorem activated_abort_on_cancel (w : World) (d : Nat)
    (h1 : w.activeDoc = some d) (h2 : w.dialogFile = none) :
    Activated w = ([Ev.askUserParams, Ev.msgAbort], none) := by
  unfold Activated
  rw [h1]
  simp [getUserParameters, h2]

/-- A one-document project used by witnesses: the single file `"f"` opens
as document `0`, has no drawing pages and no references. -/
def envW : Env :=
  Env.mk (fun s => if s = "f" then some 0 else none) (fun _ => [])
    (fun _ => []) (fun s _ => s)

/-- A run in which the user cancelled the save dialog. -/
def worldCancelled : World :=
  World.mk (some 0) (fun _ => "f") envW (fun _ => "2021-01-02T00:00:00Z")
    (fun _ => Page.mk [] 1) none false none (fun s => s) 1

/-- Witness for C10 on the concrete cancelled run. -/
theorem activated_abort_on_cancel_witness :
    Activated worldCancelled = ([Ev.askUserParams, Ev.msgAbort], none) :=
  activated_abort_on_cancel worldCancelled 0 rfl rfl

/-- C7: a complete run of `Activated` performs its steps in the fixed
order ask-user-parameters, read-spreadsheet-parameters, walk-references,
stamp-fields, export-and-merge; the pages handed to the export step are
exactly the pages produced by the field-substitution step, so no page is
exported before its title-block fields have been substituted. -/
theorem activated_phase_order (w : World) (d : Nat) (f : String)
    (wr : List (Nat × Nat) × List Nat × List String)
    (stamped : List (DocT × Page))
    (h1 : w.activeDoc = some d) (h2 : w.dialogFile = some f)
    (hw : createTechDrawDocumentList w.env w.fuel
        (splitPath (w.docFileName d)).2 (splitPath (w.docFileName d)).1 []
        w.recursionAnswer = some wr)
    (hc : computeTechDraw
        (stdToFields (getBookParameters [] [] w.sheetRows?).1)
        (wr.1.map (fun dp => (DocT.mk (w.docDate dp.1), w.pageState dp.2)))
        (getBookParameters [] [] w.sheetRows?).2 = some stamped) :
    (Activated w).1 = [Ev.askUserParams, Ev.readBookParams, Ev.walkRefs,
        Ev.stampFields, Ev.exportMerge, Ev.msgCompleted] ∧
    ∃ r, (Activated w).2 = some r ∧ r.stamped = stamped ∧
      r.exports.map Prod.snd = stamped.map Prod.snd := by
  unfold Activated
  rw [h1]
  simp only [getUserParameters, h2, Option.map_some']
  rw [hw]
  simp only [hc]
  refine ⟨trivial, ⟨_, rfl, rfl, ?_⟩⟩
  exact createPDFGo_map_snd w.tempName stamped 1

/-- A run in which everything succeeds: one document, no pages, no
references, no spreadsheet. -/
def worldComplete : World :=
  World.mk (some 0) (fun _ => "f") envW (fun _ => "2021-01-02T00:00:00Z")
    (fun _ => Page.mk [] 1) none false (some "book") (fun s => s) 1

/-- Witness for C7 on the concrete completed run. -/
theorem activated_phase_order_witness :
    (Activated worldComplete).1 = [Ev.askUserParams, Ev.readBookParams,
      Ev.walkRefs, Ev.stampFields, Ev.exportMerge, Ev.msgCompleted] :=
  (activated_phase_order worldComplete 0 "book" ([], [0], []) [] rfl rfl
    (by simp [createTechDrawDocumentList, walkA2pObjects, getDocumentTechDraw,
          worldComplete, envW, joinPath, splitPath])
    (by simp [worldComplete, computeTechDraw, computeTechDrawGo])).1

/-! ## Lemmas about the substitution loop of `_computeEditableFields` -/

theorem dGet?_eq_none_of_not_keys {α : Type} (d : List (String × α)) (k : String)
    (h : k ∉ d.map Prod.fst) : dGet? d k = none := by
  apply dGet?_eq_none_of_dHas_false
  induction d with
  | nil => simp [dHas]
  | cons e rest ih =>
    simp only [List.map_cons, List.mem_cons] at h
    push_neg at h
    simp only [dHas, Bool.or_eq_false_iff, decide_eq_false_iff_not]
    exact ⟨fun hh => h.1 hh.symm, ih h.2⟩

theorem substLoop_get_of_not_mem (td t : List (String × String)) (k : String)
    (h : dGet? td k = none) : dGet? (substLoop t td) k = dGet? t k := by
  induction td generalizing t with
  | nil => simp [substLoop]
  | cons e rest ih =>
    have hek : ¬e.1 = k := by
      intro hc
      simp [dGet?, hc] at h
    have hrest : dGet? rest k = none := by
      simpa [dGet?, hek] using h
    show dGet? (substLoop (if dHas t e.1 then dSet t e.1 e.2 else t) rest) k = _
    rw [ih _ hrest]
    by_cases hh : dHas t e.1 = true
    · rw [if_pos hh]
      exact dGet?_dSet_ne t e.1 k e.2 (fun hc => hek hc.symm)
    · rw [Bool.not_eq_true] at hh
      rw [hh]
      simp

theorem substLoop_get_of_mem (td t : List (String × String)) (k : String)
    (v : String) (hN : (td.map Prod.fst).Nodup) (ht : dHas t k = true)
    (hv : dGet? td k = some v) : dGet? (substLoop t td) k = some v := by
  induction td generalizing t with
  | nil => simp [dGet?] at hv
  | cons e rest ih =>
    simp only [List.map_cons, List.nodup_cons] at hN
    show dGet? (substLoop (if dHas t e.1 then dSet t e.1 e.2 else t) rest) k = _
    by_cases hek : e.1 = k
    · have hv' : v = e.2 := by
        simp [dGet?, hek] at hv
        exact hv.symm
      have hrest : dGet? rest k = none := by
        apply dGet?_eq_none_of_not_keys
        rw [← hek]
        exact hN.1
      rw [substLoop_get_of_not_mem rest _ k hrest]
      rw [hek, if_pos ht, hv']
      exact dGet?_dSet_self t k e.2
    · have hv' : dGet? rest k = some v := by
        simpa [dGet?, hek] using hv
      have ht' : dHas (if dHas t e.1 then dSet t e.1 e.2 else t) k = true := by
        by_cases hh : dHas t e.1 = true
        · rw [if_pos hh, dHas_dSet]
          simp [ht]
        · rw [Bool.not_eq_true] at hh
          rw [hh]
          simpa using ht
      exact ih _ hN.2 ht' hv'

theorem substLoop_not_has (td t : List (String × String)) (k : String)
    (h : dHas t k = false) : dHas (substLoop t td) k = false := by
  induction td generalizing t with
  | nil => simpa [substLoop] using h
  | cons e rest ih =>
    show dHas (substLoop (if dHas t e.1 then dSet t e.1 e.2 else t) rest) k = false
    apply ih
    by_cases hek : e.1 = k
    · rw [hek, h]
      simpa using h
    · by_cases hh : dHas t e.1 = true
      · rw [if_pos hh, dHas_dSet]
        have hke : ¬k = e.1 := fun hc => hek hc.symm
        simp [h, hke]
      · rw [Bool.not_eq_true] at hh
        rw [hh]
        simpa using h

/-! ## Claim theorems: date/scale stamping and the substitution frame -/

/-- C6: `_computeEditableFields` stamps the configured date field with the
document's `LastModifiedDate`, trailing `'Z'` stripped before parsing and
rendered day/month/year, and stamps the configured scale field with the
string form of the page's `Scale` (provided the two configured field names
differ and neither is also a substitution-data key, which would overwrite
the stamp afterwards). -/
theorem computeEditableFields_date_scale (doc : DocT) (page : Page)
    (td : List (String × String)) (df sc : String) (page' : Page)
    (h : computeEditableFields doc page td df sc = some page')
    (hne : df ≠ sc) (hdf : dHas td df = false) (hsc : dHas td sc = false) :
    dGet? page'.editableTexts df = isoToDMY (stripZ doc.lastModifiedDate) ∧
    dGet? page'.editableTexts sc = some (toString page.scale) := by
  unfold computeEditableFields at h
  cases hdmy : isoToDMY (stripZ doc.lastModifiedDate) with
  | none => rw [hdmy] at h; exact absurd h (by simp)
  | some dmy =>
      rw [hdmy] at h
      simp only [Option.some_inj] at h
      subst h
      constructor
      · show dGet? (substLoop _ td) df = _
        rw [substLoop_get_of_not_mem td _ df
          (dGet?_eq_none_of_dHas_false td df hdf)]
        rw [dGet?_dSet_ne _ sc df (toString page.scale) hne]
        rw [dGet?_dSet_self]
      · show dGet? (substLoop _ td) sc = _
        rw [substLoop_get_of_not_mem td _ sc
          (dGet?_eq_none_of_dHas_false td sc hsc)]
        rw [dGet?_dSet_self]

/-- Witness for C6 on a concrete document and page. -/
theorem computeEditableFields_date_scale_witness :
    dGet? (Page.mk [("X", "y"), ("FC-DATE", "04/03/2021"), ("FC-SC", "5")]
        5).editableTexts "FC-DATE" =
      isoToDMY (stripZ "2021-03-04T05:06:07Z") ∧
    dGet? (Page.mk [("X", "y"), ("FC-DATE", "04/03/2021"), ("FC-SC", "5")]
        5).editableTexts "FC-SC" = some (toString (5 : Int)) :=
  computeEditableFields_date_scale (DocT.mk "2021-03-04T05:06:07Z")
    (Page.mk [("X", "y")] 5) [("Client", "A")] "FC-DATE" "FC-SC"
    (Page.mk [("X", "y"), ("FC-DATE", "04/03/2021"), ("FC-SC", "5")] 5)
    (by rfl) (by decide) (by rfl) (by rfl)

/-- C5 counterexample: with a template that has NO editable text at all,
a user-supplied metadata entry whose key equals the configured date
field name ("FC-DATE") still ends up written into the page's editable
texts, because the date stamp at line 228 put that key into the `texts`
dictionary before the `if k in texts` check at line 231 ran.  This
refutes the claim that a metadata entry is written only when a field
with that exact key already exists in the template's `EditableTexts`. -/
theorem computeEditableFields_untemplated_write :
    computeEditableFields (DocT.mk "2021-01-02T00:00:00Z") (Page.mk [] 1)
        [("FC-DATE", "CUSTOM")] "FC-DATE" "FC-SC" =
      some (Page.mk [("FC-DATE", "CUSTOM"), ("FC-SC", "1")] 1) ∧
    dHas (Page.mk ([] : List (String × String)) 1).editableTexts
        "FC-DATE" = false := by
  exact ⟨rfl, rfl⟩

/-- C5 (amended): `_computeEditableFields` writes a user-supplied
metadata entry into an editable text field only when a field with that
exact key exists in the `EditableTexts` dictionary at the moment of the
check, i.e. it was already in the template or it equals the date or
scale field name just stamped; and every editable text whose key is
neither the date field, the scale field, nor a key of the substitution
data keeps its previous value. -/
theorem computeEditableFields_frame (doc : DocT) (page : Page)
    (td : List (String × String)) (df sc : String) (page' : Page)
    (h : computeEditableFields doc page td df sc = some page') :
    (∀ k, dHas page.editableTexts k = false → k ≠ df → k ≠ sc →
      dGet? page'.editableTexts k = none) ∧
    (∀ k, k ≠ df → k ≠ sc → dHas td k = false →
      dGet? page'.editableTexts k = dGet? page.editableTexts k) := by
  unfold computeEditableFields at h
  cases hdmy : isoToDMY (stripZ doc.lastModifiedDate) with
  | none => rw [hdmy] at h; exact absurd h (by simp)
  | some dmy =>
      rw [hdmy] at h
      simp only [Option.some_inj] at h
      subst h
      constructor
      · intro k hk hkdf hksc
        show dGet? (substLoop _ td) k = none
        apply dGet?_eq_none_of_dHas_false
        apply substLoop_not_has
        rw [dHas_dSet, dHas_dSet]
        simp [hk, hkdf, hksc]
      · intro k hkdf hksc hktd
        show dGet? (substLoop _ td) k = _
        rw [substLoop_get_of_not_mem td _ k
          (dGet?_eq_none_of_dHas_false td k hktd)]
        rw [dGet?_dSet_ne _ sc k (toString page.scale) hksc]
        rw [dGet?_dSet_ne _ df k dmy hkdf]

/-- Witness for the amended C5 on a concrete page: the key `"Other"` of
the substitution data is absent from the template and is not written;
the untouched field `"KEEP"` keeps its value. -/
theorem computeEditableFields_frame_witness :
    dGet? (Page.mk [("KEEP", "v"), ("FC-DATE", "02/01/2021"),
        ("FC-SC", "1")] 1).editableTexts "Other" = none ∧
    dGet? (Page.mk [("KEEP", "v"), ("FC-DATE", "02/01/2021"),
        ("FC-SC", "1")] 1).editableTexts "KEEP" =
      dGet? (Page.mk [("KEEP", "v")] 1).editableTexts "KEEP" := by
  have h := computeEditableFields_frame (DocT.mk "2021-01-02T00:00:00Z")
    (Page.mk [("KEEP", "v")] 1) [("Other", "x")] "FC-DATE" "FC-SC"
    (Page.mk [("KEEP", "v"), ("FC-DATE", "02/01/2021"), ("FC-SC", "1")] 1)
    (by rfl)
  exact ⟨h.1 "Other" (by rfl) (by decide) (by decide),
         h.2 "KEEP" (by decide) (by decide) (by rfl)⟩

/-! ## Claim theorem: page numbering of `_computeTechDraw` -/

theorem computeTechDrawGo_length (df sc sh : String) (nb : Int) :
    ∀ (l : List (DocT × Page)) (td : List (String × String)) (pe : Int)
      (res : List (DocT × Page)),
      computeTechDrawGo df sc sh nb l td pe = some res →
      res.length = l.length := by
  intro l
  induction l with
  | nil =>
    intro td pe res h
    simp only [computeTechDrawGo, Option.some_inj] at h
    subst h
    rfl
  | cons dp rest ih =>
    intro td pe res h
    cases dp with
    | mk doc page =>
      simp only [computeTechDrawGo] at h
      cases hce : computeEditableFields doc page
          (dSet td sh (toString pe ++ " / " ++ toString nb)) df sc with
      | none => rw [hce] at h; exact absurd h (by simp)
      | some page' =>
        rw [hce] at h
        cases hgo : computeTechDrawGo df sc sh nb rest
            (dSet td sh (toString pe ++ " / " ++ toString nb)) (pe + 1) with
        | none => rw [hgo] at h; exact absurd h (by simp)
        | some rest' =>
          rw [hgo] at h
          simp only [Option.some_inj] at h
          subst h
          simp [ih _ _ _ hgo]

theorem computeEditableFields_sheet (doc : DocT) (page : Page)
    (td : List (String × String)) (df sc sh : String) (page' : Page)
    (s : String) (hN : (td.map Prod.fst).Nodup)
    (h : computeEditableFields doc page td df sc = some page')
    (hhas : dHas page.editableTexts sh = true)
    (hv : dGet? td sh = some s) :
    dGet? page'.editableTexts sh = some s := by
  unfold computeEditableFields at h
  cases hdmy : isoToDMY (stripZ doc.lastModifiedDate) with
  | none => rw [hdmy] at h; exact absurd h (by simp)
  | some dmy =>
      rw [hdmy] at h
      simp only [Option.some_inj] at h
      subst h
      show dGet? (substLoop _ td) sh = some s
      apply substLoop_get_of_mem td _ sh s hN _ hv
      rw [dHas_dSet, dHas_dSet]
      simp [hhas]

theorem computeTechDrawGo_sheet (df sc sh : String) (nb : Int) :
    ∀ (l : List (DocT × Page)) (td : List (String × String)) (pe : Int)
      (res : List (DocT × Page)),
      (td.map Prod.fst).Nodup →
      computeTechDrawGo df sc sh nb l td pe = some res →
      ∀ (i : Nat) (hi : i < l.length) (hj : i < res.length),
        dHas ((l.get ⟨i, hi⟩).2.editableTexts) sh = true →
        dGet? ((res.get ⟨i, hj⟩).2.editableTexts) sh =
          some (toString (pe + (i : Int)) ++ " / " ++ toString nb) := by
  intro l
  induction l with
  | nil => intro td pe res _ _ i hi; simp at hi
  | cons dp rest ih =>
    intro td pe res hN h i hi hj hhas
    cases dp with
    | mk doc page =>
      simp only [computeTechDrawGo] at h
      cases hce : computeEditableFields doc page
          (dSet td sh (toString pe ++ " / " ++ toString nb)) df sc with
      | none => rw [hce] at h; exact absurd h (by simp)
      | some page' =>
        rw [hce] at h
        cases hgo : computeTechDrawGo df sc sh nb rest
            (dSet td sh (toString pe ++ " / " ++ toString nb)) (pe + 1) with
        | none => rw [hgo] at h; exact absurd h (by simp)
        | some rest' =>
          rw [hgo] at h
          simp only [Option.some_inj] at h
          subst h
          cases i with
          | zero =>
            have harg : pe + ((0 : Nat) : Int) = pe := by simp
            rw [harg]
            show dGet? page'.editableTexts sh = _
            exact computeEditableFields_sheet doc page _ df sc sh page' _
              (keys_nodup_dSet td sh _ hN) hce hhas
              (dGet?_dSet_self td sh _)
          | succ i' =>
            have hi' : i' < rest.length := Nat.lt_of_succ_lt_succ hi
            have hj' : i' < rest'.length := Nat.lt_of_succ_lt_succ hj
            have harg : pe + ((i' + 1 : Nat) : Int) = (pe + 1) + (i' : Int) := by
              push_cast
              ring
            rw [harg]
            show dGet? ((rest'.get ⟨i', hj'⟩).2.editableTexts) sh = _
            exact ih _ (pe + 1) rest' (keys_nodup_dSet td sh _ hN) hgo i' hi'
              hj' hhas

/-- C1: `_computeTechDraw` stamps the sheet field of the page at 0-based
position `i` of the document list with `"p / N"` where
`p = Stating_Page + i` and `N = Stating_Page + len(doc_list) +
Nb_Page_After - 1`: consecutive pages get consecutive sheet numbers
starting at `Stating_Page` and all pages share the same total `N`.
(The page must have a sheet field for it to be stamped, and the
`editable_fields` dictionary has unique keys, as every Python dict
does.) -/
theorem computeTechDraw_page_numbering (sf : StdFields)
    (docList : List (DocT × Page)) (editableFields : List (String × String))
    (res : List (DocT × Page))
    (hN : (editableFields.map Prod.fst).Nodup)
    (h : computeTechDraw sf docList editableFields = some res)
    (i : Nat) (hi : i < docList.length)
    (hsheet : dHas ((docList.get ⟨i, hi⟩).2.editableTexts)
      sf.sheetField = true) :
    ∃ hj : i < res.length,
      dGet? ((res.get ⟨i, hj⟩).2.editableTexts) sf.sheetField =
        some (toString (sf.statingPage + (i : Int)) ++ " / " ++
          toString (sf.statingPage + (docList.length : Int) +
            sf.nbPageAfter - 1)) := by
  unfold computeTechDraw at h
  have hlen := computeTechDrawGo_length sf.dateField sf.scaleField
    sf.sheetField _ docList editableFields sf.statingPage res h
  have hj : i < res.length := by rw [hlen]; exact hi
  exact ⟨hj, computeTechDrawGo_sheet sf.dateField sf.scaleField sf.sheetField
    _ docList editableFields sf.statingPage res hN h i hi hj hsheet⟩

/-- Standard fields used by the C1 witness: the book starts at sheet 2
and reserves one extra page after the collected ones. -/
def sfW : StdFields := StdFields.mk 2 1 "FC-DATE" "FC-SC" "FC-SH"

/-- Two-document list used by the C1 witness. -/
def docListW : List (DocT × Page) :=
  [(DocT.mk "2021-01-02T00:00:00Z", Page.mk [("FC-SH", "old"), ("K", "keep")] 5),
   (DocT.mk "2022-05-06Z", Page.mk [("FC-SH", "old2")] 7)]

/-- The stamped result of `computeTechDraw sfW docListW`. -/
def resW : List (DocT × Page) :=
  [(DocT.mk "2021-01-02T00:00:00Z",
    Page.mk [("FC-SH", "2 / 4"), ("K", "keep"), ("FC-DATE", "02/01/2021"),
      ("FC-SC", "5")] 5),
   (DocT.mk "2022-05-06Z",
    Page.mk [("FC-SH", "3 / 4"), ("FC-DATE", "06/05/2022"),
      ("FC-SC", "7")] 7)]

/-- Witness for C1: page at position 1 of the two-page book starting at
sheet 2 with one reserved page after gets sheet string `"3 / 4"`. -/
theorem computeTechDraw_page_numbering_witness :
    ∃ hj : 1 < resW.length,
      dGet? ((resW.get ⟨1, hj⟩).2.editableTexts) sfW.sheetField =
        some (toString (sfW.statingPage + ((1 : Nat) : Int)) ++ " / " ++
          toString (sfW.statingPage + (docListW.length : Int) +
            sfW.nbPageAfter - 1)) :=
  computeTechDraw_page_numbering sfW docListW [("Client", "ACME")] resW
    (by decide) (by rfl) 1 (by decide) (by rfl)

/-! ## Claim theorem: spreadsheet parameter extraction -/

theorem dHas_iff_keys {α : Type} (d : List (String × α)) (k : String) :
    dHas d k = true ↔ k ∈ d.map Prod.fst := by
  induction d with
  | nil => simp [dHas]
  | cons e rest ih =>
    simp only [dHas, Bool.or_eq_true, decide_eq_true_eq, List.map_cons,
      List.mem_cons, ih]
    constructor
    · intro h
      rcases h with h | h
      · exact Or.inl h.symm
      · exact Or.inr h
    · intro h
      rcases h with h | h
      · exact Or.inl h.symm
      · exact Or.inr h

theorem keys_nodup_buildTempDict (rows : List (String × String)) :
    ((buildTempDict rows).map Prod.fst).Nodup := by
  have hgen : ∀ (rs : List (String × String)) (d : List (String × String)),
      (d.map Prod.fst).Nodup →
      ((rs.foldl (fun d kv => dSet d kv.1 kv.2) d).map Prod.fst).Nodup := by
    intro rs
    induction rs with
    | nil => intro d h; exact h
    | cons r rest ih =>
      intro d h
      exact ih _ (keys_nodup_dSet d r.1 r.2 h)
  exact hgen rows [] (by simp)

/-- The value the `for` loop of `_getBookParameters` stores under a
standard key `k` whose spreadsheet value is `v`, when the dictionary
currently holds `cur` there: `Stating_Page` and `Nb_Page_After` are
parsed as integers with the current (default) value as fallback, the
three field names are stored as strings. -/
def bookStdValue (k v : String) (cur : Option FieldVal) : FieldVal :=
  if k = "Stating_Page" ∨ k = "Nb_Page_After" then
    match pyInt? v with
    | some n => FieldVal.int n
    | none => cur.getD (FieldVal.int 0)
  else FieldVal.str v

theorem bookFold_keys :
    ∀ (entries : List (String × String))
      (acc : List (String × FieldVal) × List (String × String)),
      (∀ k, k ∈ STANDARDS_FIELDS_NAME → dHas acc.1 k = true) →
      ((entries.foldl bookStep acc).1).map Prod.fst = acc.1.map Prod.fst := by
  intro entries
  induction entries with
  | nil => intro acc _; rfl
  | cons e rest ih =>
    intro acc h
    show ((rest.foldl bookStep (bookStep acc e)).1).map Prod.fst = _
    have hkeys : ((bookStep acc e).1).map Prod.fst = acc.1.map Prod.fst := by
      unfold bookStep
      by_cases hf : e.1 ∈ STANDARDS_FIELDS_NAME
      · rw [if_pos hf]
        by_cases hsp : e.1 = "Stating_Page" ∨ e.1 = "Nb_Page_After"
        · rw [if_pos hsp]
          exact keys_dSet_of_dHas _ _ _ (h e.1 hf)
        · rw [if_neg hsp]
          exact keys_dSet_of_dHas _ _ _ (h e.1 hf)
      · rw [if_neg hf]
    have hinv : ∀ k, k ∈ STANDARDS_FIELDS_NAME →
        dHas (bookStep acc e).1 k = true := by
      intro k hk
      rw [dHas_iff_keys, hkeys, ← dHas_iff_keys]
      exact h k hk
    rw [ih _ hinv, hkeys]

theorem bookFold_std_get :
    ∀ (entries : List (String × String))
      (acc : List (String × FieldVal) × List (String × String)) (k : String),
      (entries.map Prod.fst).Nodup → k ∈ STANDARDS_FIELDS_NAME →
      dGet? ((entries.foldl bookStep acc).1) k =
        (match dGet? entries k with
         | some v => some (bookStdValue k v (dGet? acc.1 k))
         | none => dGet? acc.1 k) := by
  intro entries
  induction entries with
  | nil => intro acc k _ _; rfl
  | cons e rest ih =>
    intro acc k hN hk
    simp only [List.map_cons, List.nodup_cons] at hN
    show dGet? ((rest.foldl bookStep (bookStep acc e)).1) k = _
    by_cases hek : e.1 = k
    · have hrestnone : dGet? rest k = none :=
        dGet?_eq_none_of_not_keys rest k (hek ▸ hN.1)
      rw [ih (bookStep acc e) k hN.2 hk, hrestnone]
      have hsome : dGet? (e :: rest) k = some e.2 := by
        simp [dGet?, hek]
      rw [hsome]
      show dGet? (bookStep acc e).1 k = some (bookStdValue k e.2 (dGet? acc.1 k))
      unfold bookStep bookStdValue
      rw [if_pos (hek ▸ hk)]
      by_cases hsp : e.1 = "Stating_Page" ∨ e.1 = "Nb_Page_After"
      · rw [if_pos hsp, if_pos (hek ▸ hsp)]
        subst hek
        cases hpi : pyInt? e.2 with
        | none => simp only [hpi]; exact dGet?_dSet_self _ _ _
        | some n => simp only [hpi]; exact dGet?_dSet_self _ _ _
      · rw [if_neg hsp, if_neg (hek ▸ hsp)]
        subst hek
        exact dGet?_dSet_self _ _ _
    · have hacc : dGet? (bookStep acc e).1 k = dGet? acc.1 k := by
        unfold bookStep
        by_cases hf : e.1 ∈ STANDARDS_FIELDS_NAME
        · rw [if_pos hf]
          by_cases hsp : e.1 = "Stating_Page" ∨ e.1 = "Nb_Page_After"
          · rw [if_pos hsp]
            exact dGet?_dSet_ne _ _ _ _ (fun hc => hek hc.symm)
          · rw [if_neg hsp]
            exact dGet?_dSet_ne _ _ _ _ (fun hc => hek hc.symm)
        · rw [if_neg hf]
      have hskip : dGet? (e :: rest) k = dGet? rest k := by
        simp [dGet?, hek]
      rw [ih (bookStep acc e) k hN.2 hk, hacc, hskip]

theorem bookFold_edit_get :
    ∀ (entries : List (String × String))
      (acc : List (String × FieldVal) × List (String × String)) (k : String),
      (entries.map Prod.fst).Nodup → k ∉ STANDARDS_FIELDS_NAME →
      dGet? ((entries.foldl bookStep acc).2) k =
        (match dGet? entries k with
         | some v => some v
         | none => dGet? acc.2 k) := by
  intro entries
  induction entries with
  | nil => intro acc k _ _; rfl
  | cons e rest ih =>
    intro acc k hN hk
    simp only [List.map_cons, List.nodup_cons] at hN
    show dGet? ((rest.foldl bookStep (bookStep acc e)).2) k = _
    by_cases hek : e.1 = k
    · have hrestnone : dGet? rest k = none :=
        dGet?_eq_none_of_not_keys rest k (hek ▸ hN.1)
      rw [ih (bookStep acc e) k hN.2 hk, hrestnone]
      have hsome : dGet? (e :: rest) k = some e.2 := by
        simp [dGet?, hek]
      rw [hsome]
      show dGet? (bookStep acc e).2 k = some e.2
      unfold bookStep
      rw [if_neg (hek ▸ hk)]
      show dGet? (dSet acc.2 e.1 e.2) k = some e.2
      rw [hek]
      exact dGet?_dSet_self _ _ _
    · have hacc : dGet? (bookStep acc e).2 k = dGet? acc.2 k := by
        unfold bookStep
        by_cases hf : e.1 ∈ STANDARDS_FIELDS_NAME
        · rw [if_pos hf]
          by_cases hsp : e.1 = "Stating_Page" ∨ e.1 = "Nb_Page_After"
          · rw [if_pos hsp]
          · rw [if_neg hsp]
        · rw [if_neg hf]
          exact dGet?_dSet_ne _ _ _ _ (fun hc => hek hc.symm)
      have hskip : dGet? (e :: rest) k = dGet? rest k := by
        simp [dGet?, hek]
      rw [ih (bookStep acc e) k hN.2 hk, hacc, hskip]

theorem bookFold_edit_no_std :
    ∀ (entries : List (String × String))
      (acc : List (String × FieldVal) × List (String × String)) (k : String),
      k ∈ STANDARDS_FIELDS_NAME →
      dGet? ((entries.foldl bookStep acc).2) k = dGet? acc.2 k := by
  intro entries
  induction entries with
  | nil => intro acc k _; rfl
  | cons e rest ih =>
    intro acc k hk
    show dGet? ((rest.foldl bookStep (bookStep acc e)).2) k = _
    rw [ih (bookStep acc e) k hk]
    unfold bookStep
    by_cases hf : e.1 ∈ STANDARDS_FIELDS_NAME
    · rw [if_pos hf]
      by_cases hsp : e.1 = "Stating_Page" ∨ e.1 = "Nb_Page_After"
      · rw [if_pos hsp]
      · rw [if_neg hsp]
    · rw [if_neg hf]
      have hek : ¬e.1 = k := by
        intro hc
        exact hf (hc ▸ hk)
      exact dGet?_dSet_ne _ _ _ _ (fun hc => hek hc.symm)

/-- C8: after every call to `_getBookParameters`, whatever the
dictionaries held before, `standard_fields` has exactly the five keys
`Stating_Page`, `Nb_Page_After`, `Date_Field`, `Scale_Field`,
`Sheet_Field` with defaults `1`, `0`, `"FC-DATE"`, `"FC-SC"`, `"FC-SH"`,
each overridden by the matching spreadsheet row when present; an
unparseable `Stating_Page`/`Nb_Page_After` value falls back to its
default; every spreadsheet row whose key is not one of the five goes
into `editable_fields` (and none of the five does); with no `#TECHINFO#`
spreadsheet, `editable_fields` is empty. -/
theorem getBookParameters_spec (std0 : List (String × FieldVal))
    (edit0 : List (String × String))
    (sheetRows? : Option (List (String × String))) :
    ((getBookParameters std0 edit0 sheetRows?).1.map Prod.fst =
      STANDARDS_FIELDS_NAME) ∧
    (sheetRows? = none →
      getBookParameters std0 edit0 sheetRows? = (defaultStandardFields, [])) ∧
    (∀ rows, sheetRows? = some rows →
      (∀ k, k ∈ STANDARDS_FIELDS_NAME →
        dGet? (buildTempDict rows) k = none →
        dGet? (getBookParameters std0 edit0 sheetRows?).1 k =
          dGet? defaultStandardFields k) ∧
      (∀ v, dGet? (buildTempDict rows) "Stating_Page" = some v →
        dGet? (getBookParameters std0 edit0 sheetRows?).1 "Stating_Page" =
          some (FieldVal.int ((pyInt? v).getD 1))) ∧
      (∀ v, dGet? (buildTempDict rows) "Nb_Page_After" = some v →
        dGet? (getBookParameters std0 edit0 sheetRows?).1 "Nb_Page_After" =
          some (FieldVal.int ((pyInt? v).getD 0))) ∧
      (∀ k v, (k = "Date_Field" ∨ k = "Scale_Field" ∨ k = "Sheet_Field") →
        dGet? (buildTempDict rows) k = some v →
        dGet? (getBookParameters std0 edit0 sheetRows?).1 k =
          some (FieldVal.str v)) ∧
      (∀ k, k ∉ STANDARDS_FIELDS_NAME →
        dGet? (getBookParameters std0 edit0 sheetRows?).2 k =
          dGet? (buildTempDict rows) k) ∧
      (∀ k, k ∈ STANDARDS_FIELDS_NAME →
        dGet? (getBookParameters std0 edit0 sheetRows?).2 k = none)) := by
  have hdefhas : ∀ k, k ∈ STANDARDS_FIELDS_NAME →
      dHas defaultStandardFields k = true := by decide
  refine ⟨?_, ?_, ?_⟩
  · cases hs : sheetRows? with
    | none => rfl
    | some rows =>
      show ((buildTempDict rows).foldl bookStep
          (defaultStandardFields, [])).1.map Prod.fst = STANDARDS_FIELDS_NAME
      rw [bookFold_keys (buildTempDict rows) (defaultStandardFields, []) hdefhas]
      rfl
  · intro h
    rw [h]
    rfl
  · intro rows hr
    subst hr
    have hN := keys_nodup_buildTempDict rows
    have hfold := bookFold_std_get (buildTempDict rows)
      (defaultStandardFields, []) 
    have hfedit := bookFold_edit_get (buildTempDict rows)
      (defaultStandardFields, [])
    refine ⟨?_, ?_, ?_, ?_, ?_, ?_⟩
    · intro k hk hnone
      show dGet? ((buildTempDict rows).foldl bookStep
          (defaultStandardFields, [])).1 k = _
      rw [hfold k hN hk, hnone]
    · intro v hv
      show dGet? ((buildTempDict rows).foldl bookStep
          (defaultStandardFields, [])).1 "Stating_Page" = _
      rw [hfold "Stating_Page" hN (by decide), hv]
      show some (bookStdValue "Stating_Page" v (some (FieldVal.int 1))) = _
      unfold bookStdValue
      cases hpi : pyInt? v with
      | none => simp [hpi]
      | some n => simp [hpi]
    · intro v hv
      show dGet? ((buildTempDict rows).foldl bookStep
          (defaultStandardFields, [])).1 "Nb_Page_After" = _
      rw [hfold "Nb_Page_After" hN (by decide), hv]
      show some (bookStdValue "Nb_Page_After" v (some (FieldVal.int 0))) = _
      unfold bookStdValue
      cases hpi : pyInt? v with
      | none => simp [hpi]
      | some n => simp [hpi]
    · intro k v hk hv
      have hk5 : k ∈ STANDARDS_FIELDS_NAME := by
        rcases hk with h | h | h <;> subst h <;> decide
      show dGet? ((buildTempDict rows).foldl bookStep
          (defaultStandardFields, [])).1 k = _
      rw [hfold k hN hk5, hv]
      have hnotsp : ¬(k = "Stating_Page" ∨ k = "Nb_Page_After") := by
        rcases hk with h | h | h <;> subst h <;> decide
      show some (bookStdValue k v _) = _
      unfold bookStdValue
      rw [if_neg hnotsp]
    · intro k hk
      show dGet? ((buildTempDict rows).foldl bookStep
          (defaultStandardFields, [])).2 k = _
      rw [hfedit k hN hk]
      cases htemp : dGet? (buildTempDict rows) k with
      | none => rfl
      | some v => rfl
    · intro k hk
      show dGet? ((buildTempDict rows).foldl bookStep
          (defaultStandardFields, [])).2 k = none
      rw [bookFold_edit_no_std (buildTempDict rows)
        (defaultStandardFields, []) k hk]
      rfl

/-- The spreadsheet rows used by the C8 witness. -/
def rowsW : List (String × String) :=
  [("Stating_Page", "3"), ("Nb_Page_After", "x"), ("Client", "ACME"),
   ("Sheet_Field", "SH")]

/-- Witness for C8 on a concrete spreadsheet: `Stating_Page` is parsed,
the unparseable `Nb_Page_After` keeps its default, `Sheet_Field` is
overridden, the custom key `Client` lands in `editable_fields`, and a
missing spreadsheet leaves `editable_fields` empty. -/
theorem getBookParameters_spec_witness :
    dGet? (getBookParameters [] [] (some rowsW)).1 "Stating_Page" =
      some (FieldVal.int ((pyInt? "3").getD 1)) ∧
    dGet? (getBookParameters [] [] (some rowsW)).1 "Nb_Page_After" =
      some (FieldVal.int ((pyInt? "x").getD 0)) ∧
    dGet? (getBookParameters [] [] (some rowsW)).1 "Sheet_Field" =
      some (FieldVal.str "SH") ∧
    dGet? (getBookParameters [] [] (some rowsW)).2 "Client" =
      dGet? (buildTempDict rowsW) "Client" ∧
    (getBookParameters [] [] none).1.map Prod.fst = STANDARDS_FIELDS_NAME ∧
    getBookParameters [] [] none = (defaultStandardFields, []) := by
  obtain ⟨hkeys0, hnone0, _⟩ := getBookParameters_spec [] [] none
  obtain ⟨hkeys, hnone, hsome⟩ := getBookParameters_spec [] [] (some rowsW)
  obtain ⟨hdef, hsp, hnp, hfields, hedit, hnostd⟩ := hsome rowsW rfl
  refine ⟨hsp "3" (by rfl), hnp "x" (by rfl),
    hfields "Sheet_Field" "SH" (by decide) (by rfl),
    hedit "Client" (by decide), hkeys0, hnone0 rfl⟩

/-! ## Claim theorem: cycle/duplicate suppression of the reference walk

The invariant: a run of the walk extends `treated` (keeping it
duplicate-free), and for each document `d` the collected list holds the
`(d, page)` tuples of `d` exactly when `d` was added to `treated` by
this run, and holds nothing for any other `d`. -/

def WalkInv (env : Env) (t0 : List Nat) (ret : List (Nat × Nat))
    (t1 : List Nat) : Prop :=
  t0 <+: t1 ∧ t1.Nodup ∧
  ∀ d, ret.filter (fun x => x.1 = d) =
    if d ∈ t1 ∧ d ∉ t0 then (env.docPages d).map (fun p => (d, p)) else []

theorem walkInv_nil (env : Env) (t : List Nat) (hN : t.Nodup) :
    WalkInv env t [] t := by
  refine ⟨List.prefix_refl t, hN, ?_⟩
  intro d
  rw [if_neg]
  · rfl
  · rintro ⟨h1, h2⟩
    exact h2 h1

theorem walkInv_gdt (env : Env) (full : String) (t : List Nat)
    (hN : t.Nodup) :
    WalkInv env t (getDocumentTechDraw env full t).1
      (getDocumentTechDraw env full t).2.1 := by
  unfold getDocumentTechDraw
  cases hopen : env.openDoc full with
  | none => exact walkInv_nil env t hN
  | some doc =>
    by_cases hmem : doc ∈ t
    · simp only [if_pos hmem]
      exact walkInv_nil env t hN
    · simp only [if_neg hmem]
      refine ⟨List.prefix_append t [doc], ?_, ?_⟩
      · simp [List.nodup_append, hN, hmem]
      · intro d
        by_cases hd : doc = d
        · subst hd
          rw [if_pos ⟨by simp, hmem⟩]
          rw [List.filter_map]
          have : (fun (x : Nat × Nat) => decide (x.1 = doc)) ∘
              (fun p => (doc, p)) = fun _ => true := by
            funext p
            simp
          rw [this, List.filter_true]
        · rw [if_neg (by
            rintro ⟨h1, h2⟩
            rcases List.mem_append.mp h1 with h | h
            · exact h2 h
            · exact hd (List.mem_singleton.mp h).symm)]
          rw [List.filter_map]
          have : (fun (x : Nat × Nat) => decide (x.1 = d)) ∘
              (fun p => (doc, p)) = fun _ => false := by
            funext p
            simp [hd]
          rw [this, List.filter_false, List.map_nil]

theorem walkInv_trans (env : Env) (t0 t1 t2 : List Nat)
    (r1 r2 : List (Nat × Nat)) (h1 : WalkInv env t0 r1 t1)
    (h2 : WalkInv env t1 r2 t2) : WalkInv env t0 (r1 ++ r2) t2 := by
  obtain ⟨hp1, hn1, hf1⟩ := h1
  obtain ⟨hp2, hn2, hf2⟩ := h2
  refine ⟨hp1.trans hp2, hn2, ?_⟩
  intro d
  rw [List.filter_append, hf1 d, hf2 d]
  by_cases hd0 : d ∈ t0
  · have hd1 : d ∈ t1 := hp1.subset hd0
    rw [if_neg (by rintro ⟨_, hc⟩; exact hc hd0),
        if_neg (by rintro ⟨_, hc⟩; exact hc hd1),
        if_neg (by rintro ⟨_, hc⟩; exact hc hd0)]
    rfl
  · by_cases hd1 : d ∈ t1
    · have hd2 : d ∈ t2 := hp2.subset hd1
      rw [if_pos ⟨hd1, hd0⟩, if_neg (by rintro ⟨_, hc⟩; exact hc hd1),
          if_pos ⟨hd2, hd0⟩]
      simp
    · by_cases hd2 : d ∈ t2
      · rw [if_neg (by rintro ⟨hc, _⟩; exact hd1 hc), if_pos ⟨hd2, hd1⟩,
            if_pos ⟨hd2, hd0⟩]
        simp
      · rw [if_neg (by rintro ⟨hc, _⟩; exact hd1 hc),
            if_neg (by rintro ⟨hc, _⟩; exact hd2 hc),
            if_neg (by rintro ⟨hc, _⟩; exact hd2 hc)]
        rfl

theorem walk_inv (env : Env) : ∀ (fuel : Nat),
    (∀ (fileName filePath : String) (t0 : List Nat) (recursive : Bool)
       (ret : List (Nat × Nat)) (t1 : List Nat) (msgs : List String),
       t0.Nodup →
       createTechDrawDocumentList env fuel fileName filePath t0 recursive =
         some (ret, t1, msgs) →
       WalkInv env t0 ret t1) ∧
    (∀ (objs : List A2PObj) (filePath : String) (recursive : Bool)
       (tInit : List Nat) (acc : List (Nat × Nat)) (t0 : List Nat)
       (msgs0 : List String) (ret : List (Nat × Nat)) (t1 : List Nat)
       (msgs : List String),
       WalkInv env tInit acc t0 →
       walkA2pObjects env fuel objs filePath recursive acc t0 msgs0 =
         some (ret, t1, msgs) →
       WalkInv env tInit ret t1) := by
  intro fuel
  induction fuel with
  | zero =>
    constructor
    · intro fn fp t0 recursive ret t1 msgs _ h
      simp [createTechDrawDocumentList] at h
    · intro objs
      induction objs with
      | nil =>
        intro fp recursive tInit acc t0 msgs0 ret t1 msgs hInv h
        simp only [walkA2pObjects, Option.some_inj, Prod.mk.injEq] at h
        obtain ⟨h1, h2, h3⟩ := h
        subst h1
        subst h2
        exact hInv
      | cons ob rest iho =>
        intro fp recursive tInit acc t0 msgs0 ret t1 msgs hInv h
        simp only [walkA2pObjects] at h
        by_cases hc : (recursive && ob.isSub) = true
        · rw [if_pos hc] at h
          have hnone : createTechDrawDocumentList env 0
              (splitPath (env.resolve ob.source fp)).2
              (splitPath (env.resolve ob.source fp)).1 t0 recursive = none := by
            simp [createTechDrawDocumentList]
          rw [hnone] at h
          simp at h
        · rw [if_neg hc] at h
          exact iho fp recursive tInit _ _ _ ret t1 msgs
            (walkInv_trans env tInit t0 _ acc _ hInv
              (walkInv_gdt env (env.resolve ob.source fp) t0 hInv.2.1)) h
  | succ f ihf =>
    have hP : ∀ (fileName filePath : String) (t0 : List Nat)
        (recursive : Bool) (ret : List (Nat × Nat)) (t1 : List Nat)
        (msgs : List String), t0.Nodup →
        createTechDrawDocumentList env (f + 1) fileName filePath t0
          recursive = some (ret, t1, msgs) →
        WalkInv env t0 ret t1 := by
      intro fn fp t0 recursive ret t1 msgs hN h
      simp only [createTechDrawDocumentList] at h
      exact ihf.2 _ _ _ t0 _ _ _ _ _ _
        (walkInv_gdt env (joinPath fp fn) t0 hN) h
    refine ⟨hP, ?_⟩
    intro objs
    induction objs with
    | nil =>
      intro fp recursive tInit acc t0 msgs0 ret t1 msgs hInv h
      simp only [walkA2pObjects, Option.some_inj, Prod.mk.injEq] at h
      obtain ⟨h1, h2, h3⟩ := h
      subst h1
      subst h2
      exact hInv
    | cons ob rest iho =>
      intro fp recursive tInit acc t0 msgs0 ret t1 msgs hInv h
      simp only [walkA2pObjects] at h
      by_cases hc : (recursive && ob.isSub) = true
      · rw [if_pos hc] at h
        cases hcr : createTechDrawDocumentList env (f + 1)
            (splitPath (env.resolve ob.source fp)).2
            (splitPath (env.resolve ob.source fp)).1 t0 recursive with
        | none =>
          rw [hcr] at h
          simp at h
        | some r =>
          rw [hcr] at h
          have hr : createTechDrawDocumentList env (f + 1)
              (splitPath (env.resolve ob.source fp)).2
              (splitPath (env.resolve ob.source fp)).1 t0 recursive =
              some (r.1, r.2.1, r.2.2) := by
            rw [hcr]
          have hinv2 := hP _ _ t0 recursive r.1 r.2.1 r.2.2 hInv.2.1 hr
          exact iho fp recursive tInit (acc ++ r.1) r.2.1 (msgs0 ++ r.2.2)
            ret t1 msgs (walkInv_trans env tInit t0 r.2.1 acc r.1 hInv hinv2) h
      · rw [if_neg hc] at h
        exact iho fp recursive tInit _ _ _ ret t1 msgs
          (walkInv_trans env tInit t0 _ acc _ hInv
            (walkInv_gdt env (env.resolve ob.source fp) t0 hInv.2.1)) h

/-- C2: whenever the reference walk returns (the fuel models Python's
recursion depth, exhausted fuel its `RecursionError` on a cyclic
reference graph), starting from a duplicate-free `treated` list it adds
each document to `treated` at most once (the final list is
duplicate-free and extends the initial one), the returned list holds the
`DrawPage` tuples of each distinct document at most once (for every `d`
the tuples with first component `d` are either absent or exactly `d`'s
page list), and a document already in `treated` contributes no pages. -/
theorem createTechDrawDocumentList_dedup (env : Env) (fuel : Nat)
    (fileName filePath : String) (treated : List Nat) (recursive : Bool)
    (ret : List (Nat × Nat)) (treatedOut : List Nat) (msgs : List String)
    (hN : treated.Nodup)
    (h : createTechDrawDocumentList env fuel fileName filePath treated
      recursive = some (ret, treatedOut, msgs)) :
    treated <+: treatedOut ∧ treatedOut.Nodup ∧
    (∀ d, d ∈ treated → ret.filter (fun x => x.1 = d) = []) ∧
    (∀ d, ret.filter (fun x => x.1 = d) = [] ∨
      ret.filter (fun x => x.1 = d) =
        (env.docPages d).map (fun p => (d, p))) := by
  obtain ⟨hpre, hnd, hfil⟩ :=
    (walk_inv env fuel).1 fileName filePath treated recursive ret treatedOut
      msgs hN h
  refine ⟨hpre, hnd, ?_, ?_⟩
  · intro d hd
    have hf := hfil d
    rw [if_neg (by rintro ⟨_, hc⟩; exact hc hd)] at hf
    exact hf
  · intro d
    have hf := hfil d
    by_cases hcond : d ∈ treatedOut ∧ d ∉ treated
    · rw [if_pos hcond] at hf
      exact Or.inr hf
    · rw [if_neg hcond] at hf
      exact Or.inl hf

/-- A cyclic two-document project with a duplicated reference, used by
the C2 witness: file `"A"` (document `0`, one page `10`) references file
`"B"` twice; file `"B"` (document `1`, pages `20` and `21`) references
`"A"` back. -/
def envC2 : Env :=
  Env.mk
    (fun s => if s = "A" then some 0 else if s = "B" then some 1 else none)
    (fun d => if d = 0 then [10] else [20, 21])
    (fun s => if s = "A" then [A2PObj.mk "B" true, A2PObj.mk "B" true]
              else if s = "B" then [A2PObj.mk "A" false] else [])
    (fun src _ => src)

/-- Witness for C2: in the cyclic duplicated-reference project the walk
returns document `1`'s pages exactly once and a duplicate-free treated
list. -/
theorem createTechDrawDocumentList_dedup_witness :
    ([0, 1] : List Nat).Nodup ∧
    ([(0, 10), (1, 20), (1, 21)] : List (Nat × Nat)).filter
        (fun x => x.1 = 1) = (envC2.docPages 1).map (fun p => (1, p)) := by
  have h := createTechDrawDocumentList_dedup envC2 3 "A" "" [] true
    [(0, 10), (1, 20), (1, 21)] [0, 1] [] (by simp)
    (by simp [createTechDrawDocumentList, walkA2pObjects, getDocumentTechDraw,
          envC2, joinPath, splitPath])
  refine ⟨h.2.1, ?_⟩
  rcases h.2.2.2 1 with hc | hc
  · exact absurd hc (by decide)
  · exact hc
